import Mathlib

/-!
# go-stress-test: the load driver, the aggregation loop and the report printer

A shallow embedding of `src/main.go`.

* Go `int` values are `Int`.  `/` and `%` on them truncate toward zero
  (`Int.tdiv`, `Int.tmod`).  The counters of a `Report` only ever grow by one
  per received result, so they stay within `0 .. totalRequests`
  (`runStressTest_counters_bounded` below) and never leave the range of `int`.
* A Go `map[κ]ν` is an association list with distinct keys (`GoMap`); the order
  of the list stands for one of the iteration orders `range` may choose.
* `http.Get`, the clock, the goroutine scheduler and the allocator are the
  environment: a `World` fixes the outcome of every `http.Get` call, the order in
  which the workers reach the channel, the elapsed wall-clock time and the largest
  channel buffer the allocator grants.
* A run-time panic is `none`: `make(chan Result, n)` with `n` negative, with a
  buffer beyond the allocation limit of the runtime (`makechan: size out of
  range`, for every `n ≥ 2^43` on a 64-bit platform) or beyond what the allocator
  grants, and integer division by zero.  `log.Fatal` is `Exit.fatal`.
-/

namespace StressTest

/-! ## Go maps -/

/-- A Go map, as the list of its entries. -/
abbrev GoMap (κ ν : Type) := List (κ × ν)

namespace GoMap

variable {κ ν : Type} [DecidableEq κ]

/-- The keys, in iteration order: `for k := range m`. -/
def keys (m : GoMap κ ν) : List κ := m.map Prod.fst

/-- The stored values, in iteration order. -/
def values (m : GoMap κ ν) : List ν := m.map Prod.snd

/-- The two-result index expression `v, ok := m[k]`. -/
def find : GoMap κ ν → κ → Option ν
  | [], _ => none
  | (k', v) :: rest, k => if k' = k then some v else find rest k

/-- The index expression `m[k]`: the zero value of the element type when `k` is absent. -/
def index (zero : ν) (m : GoMap κ ν) (k : κ) : ν := (find m k).getD zero

/-- The assignment `m[k] = v`: overwrites the entry of `k`, or adds one. -/
def assign : GoMap κ ν → κ → ν → GoMap κ ν
  | [], k, v => [(k, v)]
  | (k', v') :: rest, k, v => if k' = k then (k, v) :: rest else (k', v') :: assign rest k v

end GoMap

/-! ## Data model -/

/-- `type Result struct`; `Error` is `none` for Go's `nil`. -/
structure Result where
  StatusCode : Int
  Duration : Nat
  Error : Option String
deriving DecidableEq

/-- `type Report struct`. -/
structure Report where
  TotalTime : Nat
  TotalRequests : Int
  StatusCodes : GoMap Int Int
  Errors : Int
deriving DecidableEq

/-- `var httpStatusDescriptions`. -/
def httpStatusDescriptions : GoMap Int String :=
  [ (200, "OK - Requisição bem sucedida"),
    (201, "Created - Recurso criado com sucesso"),
    (204, "No Content - Requisição processada, sem conteúdo para retornar"),
    (301, "Moved Permanently - Recurso movido permanentemente"),
    (302, "Found - Redirecionamento temporário"),
    (400, "Bad Request - Requisição mal formatada"),
    (401, "Unauthorized - Não autorizado"),
    (403, "Forbidden - Acesso proibido"),
    (404, "Not Found - Recurso não encontrado"),
    (408, "Request Timeout - Tempo limite da requisição excedido"),
    (429, "Too Many Requests - Muitas requisições"),
    (500, "Internal Server Error - Erro interno do servidor"),
    (502, "Bad Gateway - Gateway inválido"),
    (503, "Service Unavailable - Serviço indisponível"),
    (504, "Gateway Timeout - Tempo limite do gateway excedido") ]

/-- `func getStatusCategory(code int) string`. -/
def getStatusCategory (code : Int) : String :=
  if code ≥ 100 ∧ code < 200 then "Informacional (1xx)"
  else if code ≥ 200 ∧ code < 300 then "Sucesso (2xx)"
  else if code ≥ 300 ∧ code < 400 then "Redirecionamento (3xx)"
  else if code ≥ 400 ∧ code < 500 then "Erro do Cliente (4xx)"
  else if code ≥ 500 ∧ code < 600 then "Erro do Servidor (5xx)"
  else "Código Desconhecido"

/-! ## The request executor -/

/-- The part of `*http.Response` the program reads. -/
structure Response where
  StatusCode : Int
deriving DecidableEq

/-- One call of `http.Get` as `makeRequest` sees it: the pair `(resp, err)`, with
`Except.error e` for `err != nil`, and the time `time.Since(start)` measures around it. -/
structure GetOutcome where
  reply : Except String Response
  elapsed : Nat

/-- `func makeRequest(url string) Result`, over the behaviour of `http.Get`. -/
def makeRequest (httpGet : String → GetOutcome) (url : String) : Result :=
  let out := httpGet url
  let duration := out.elapsed
  match out.reply with
  | .error err => { StatusCode := 0, Duration := duration, Error := some err }
  | .ok resp => { StatusCode := resp.StatusCode, Duration := duration, Error := none }

/-! ## The load driver -/

/-- The environment of one run of `runStressTest`. -/
structure World where
  /-- The behaviour of the `http.Get` call made by worker `i` in its iteration `j`. -/
  httpGet : Nat → Nat → String → GetOutcome
  /-- The scheduler: at step `t`, which of the still running workers sends next. -/
  sched : Nat → Nat
  /-- The value of `time.Since(start)` after the aggregation loop. -/
  elapsed : Nat
  /-- The largest number of results for which the allocator of this run grants a channel
  buffer. -/
  maxChanCap : Nat

/-- The value of `unsafe.Sizeof(Result{})` in bytes on a 64-bit platform: an `int`, a
`time.Duration` and the two words of an `error`. -/
def resultSize : Nat := 32

/-- The most bytes the Go runtime allocates for the buffer of a channel, `maxAlloc` less the
channel header: `2^48 - 96` on a 64-bit platform with a heap address space of 48 bits. -/
def maxChanBytes : Nat := 281474976710560

/-- The statement `results := make(chan Result, size)` (line 85): the capacity of the new
channel, or `none` when no channel is made.  The runtime panics with
`makechan: size out of range` when `size` is negative or the buffer of `size` results
exceeds `maxChanBytes`, which is the case for every `size ≥ 2^43`. -/
def makeChan (world : World) (size : Int) : Option Nat :=
  if size < 0 ∨ resultSize * size > maxChanBytes ∨ size > world.maxChanCap then none
  else some size.toNat

/-- The loop `for i := 0; i < bound; i++ { body }` over a state, for a body that does not
assign `i`. -/
def forLoop {σ : Type} (bound : Int) (body : σ → Nat → σ) (init : σ) : σ :=
  (List.range bound.toNat).foldl body init

/-- A goroutine started by `runStressTest`: its position among the spawned workers and the
bound of its request loop. -/
structure Worker where
  id : Nat
  bound : Int
deriving DecidableEq

/-- The body of a worker goroutine: the results it sends, in the order it sends them. -/
def Worker.run (w : Worker) (world : World) (url : String) : List Result :=
  forLoop w.bound (fun sent j => sent ++ [makeRequest (world.httpGet w.id j) url]) []

/-- The workers `runStressTest` starts (lines 94-114); `none` is the division-by-zero
panic of `totalRequests % concurrency`. -/
def spawnWorkers (totalRequests concurrency : Int) : Option (List Worker) :=
  let pool : List Worker :=
    forLoop concurrency (fun ws i => ws ++ [⟨i, totalRequests.tdiv concurrency⟩]) []
  if concurrency = 0 then none
  else
    let remaining := totalRequests.tmod concurrency
    if remaining > 0 then some (pool ++ [⟨pool.length, remaining⟩]) else some pool

/-- Take the first pending element of the `n`-th queue. -/
def popAt {α : Type} : Nat → List (List α) → Option (α × List (List α))
  | _, [] => none
  | 0, [] :: _ => none
  | 0, (x :: q) :: qs => some (x, q :: qs)
  | n + 1, q :: qs => (popAt n qs).map fun p => (p.1, q :: p.2)

/-- The order in which the results reach the channel: at every step the scheduler picks one
of the workers that still have something to send, and that worker sends its next result. -/
def deliver (sched : Nat → Nat) : Nat → Nat → List (List Result) → List Result
  | 0, _, _ => []
  | fuel + 1, t, queues =>
    let running := queues.filter fun q => !q.isEmpty
    match popAt (sched t % running.length) running with
    | none => []
    | some (r, rest) => r :: deliver sched fuel (t + 1) rest

/-- Everything received from `results` until it is closed: the channel, once made, holds
`totalRequests` elements, so no send blocks, and it is closed once every worker is done. -/
def channel (world : World) (queues : List (List Result)) : List Result :=
  deliver world.sched (queues.map List.length).sum 0 queues

/-- The body of the aggregation loop `for result := range results` (lines 123-129). -/
def aggregate (report : Report) (result : Result) : Report :=
  if result.Error ≠ none then
    { report with Errors := report.Errors + 1 }
  else
    { report with
      StatusCodes := GoMap.assign report.StatusCodes result.StatusCode
        (GoMap.index 0 report.StatusCodes result.StatusCode + 1) }

/-- The report before the first result: `Report{StatusCodes: make(map[int]int)}`. -/
def emptyReport : Report :=
  { TotalTime := 0, TotalRequests := 0, StatusCodes := [], Errors := 0 }

/-- `func runStressTest(url string, totalRequests int, concurrency int) Report`. -/
def runStressTest (world : World) (url : String) (totalRequests concurrency : Int) :
    Option Report :=
  match makeChan world totalRequests with
  | none => none
  | some _ =>
    match spawnWorkers totalRequests concurrency with
    | none => none
    | some workers =>
      let results := channel world (workers.map fun w => w.run world url)
      let report := results.foldl aggregate emptyReport
      some { report with TotalTime := world.elapsed, TotalRequests := totalRequests }

/-! ## The report printer -/

/-- One `fmt.Printf` call of `printStatusCodeDistribution`, with its arguments. -/
inductive Line where
  | header (category : String)
  | entry (code : Int) (description : String) (count : Int)
deriving DecidableEq

/-- The text a `Line` puts on standard output. -/
def Line.render : Line → String
  | .header category => "\n" ++ category ++ ":\n"
  | .entry code description count =>
    "  HTTP " ++ toString code ++ " (" ++ description ++ "): " ++ toString count ++
      " requisições\n"

/-- The body of the first loop of `printStatusCodeDistribution` (lines 141-145), for the
entry `code, count` of `statusCodes`. -/
def groupStep (categories : GoMap String (GoMap Int Int)) (entry : Int × Int) :
    GoMap String (GoMap Int Int) :=
  let code := entry.1
  let count := entry.2
  let category := getStatusCategory code
  let categories :=
    if GoMap.find categories category = none then GoMap.assign categories category []
    else categories
  GoMap.assign categories category
    (GoMap.assign (GoMap.index [] categories category) code count)

/-- The first loop of `printStatusCodeDistribution`: the codes grouped by category.  The
loop visits the entries of `statusCodes` in the order of the list, so a statement about
every list of entries is a statement about every iteration order. -/
def groupByCategory (statusCodes : GoMap Int Int) : GoMap String (GoMap Int Int) :=
  statusCodes.foldl groupStep []

/-- What the first loop of `printStatusCodeDistribution` has built once it has visited the
entries `seen`: the categories of the visited codes, each holding exactly the visited
entries of its category. -/
def Grouped (seen : List (Int × Int)) (categories : GoMap String (GoMap Int Int)) : Prop :=
  (GoMap.keys categories).Nodup ∧
  (∀ c, c ∈ GoMap.keys categories ↔ ∃ e ∈ seen, getStatusCategory e.1 = c) ∧
  ∀ c, (GoMap.keys (GoMap.index [] categories c)).Nodup ∧
    ∀ code count, GoMap.find (GoMap.index [] categories c) code = some count ↔
      ((code, count) ∈ seen ∧ getStatusCategory code = c)

/-- The description printed for a code (lines 168-171). -/
def describe (code : Int) : String :=
  let description := GoMap.index "" httpStatusDescriptions code
  if description = "" then "Status HTTP" else description

/-- The lines printed for one category (lines 157-173).  The keys of the inner map are
sorted before they are used, so the order in which `range` yields them does not show. -/
def printCategory (categories : GoMap String (GoMap Int Int)) (category : String) :
    List Line :=
  let codes := List.insertionSort (· ≤ ·) (GoMap.keys (GoMap.index [] categories category))
  Line.header category ::
    codes.map fun code =>
      let count := GoMap.index 0 (GoMap.index [] categories category) code
      Line.entry code (describe code) count

/-- `func printStatusCodeDistribution(statusCodes map[int]int)`: the `Printf` calls it
makes, in order.  `sort.Strings` orders Go strings bytewise, which on the UTF-8 text of
the category names is the order of `String`. -/
def printStatusCodeDistribution (statusCodes : GoMap Int Int) : List Line :=
  let categories := groupByCategory statusCodes
  let categoryNames := List.insertionSort (· ≤ ·) (GoMap.keys categories)
  categoryNames.flatMap (printCategory categories)

/-! ## The entry point -/

/-- How `main` ends. -/
inductive Exit where
  | fatal (msg : String)
  | panicked
  | finished (report : Report) (distribution : List Line) (failures : Option Int)
deriving DecidableEq

/-- `func main()`, over the parsed flags `-url`, `-requests` and `-concurrency`. -/
def main (world : World) (url : String) (requests concurrency : Int) : Exit :=
  if url = "" then .fatal "URL é obrigatória"
  else if requests ≤ 0 then .fatal "Número de requisições deve ser maior que 0"
  else if concurrency ≤ 0 then .fatal "Concorrência deve ser maior que 0"
  else if concurrency > requests then
    .fatal "Concorrência não pode ser maior que o número total de requisições"
  else
    match runStressTest world url requests concurrency with
    | none => .panicked
    | some report =>
      .finished report (printStatusCodeDistribution report.StatusCodes)
        (if report.Errors > 0 then some report.Errors else none)

/-! ## Sample environments -/

/-- A channel capacity a 64-bit runtime grants at most: `2^43 - 4` results of 32 bytes. -/
def sampleChanCap : Nat := 8796093022204

/-- A server that answers every request with `200 OK`. -/
def steadyWorld : World :=
  { httpGet := fun _ _ _ => { reply := .ok ⟨200⟩, elapsed := 2 },
    sched := fun t => 3 * t + 1,
    elapsed := 25,
    maxChanCap := sampleChanCap }

/-- A server that answers with changing codes and is unreachable for every third request. -/
def flakyWorld : World :=
  { httpGet := fun i j _ =>
      if (i + j) % 3 = 0 then { reply := .error "connection refused", elapsed := 5 }
      else { reply := .ok ⟨200 + 100 * (((i + j) % 4 : Nat) : Int)⟩, elapsed := 7 },
    sched := fun t => 7 * t + 3,
    elapsed := 99,
    maxChanCap := sampleChanCap }

/-! # Lemmas

## Loops and workers -/

theorem forLoop_collect {α : Type} (bound : Int) (f : Nat → α) (init : List α) :
    forLoop bound (fun acc j => acc ++ [f j]) init = init ++ (List.range bound.toNat).map f := by
  unfold forLoop
  generalize bound.toNat = n
  induction n with
  | zero => simp
  | succ n ih => simp [List.range_succ, List.foldl_append, ih]

theorem Worker.run_eq (w : Worker) (world : World) (url : String) :
    w.run world url =
      (List.range w.bound.toNat).map fun j => makeRequest (world.httpGet w.id j) url := by
  simp [Worker.run, forLoop_collect]

theorem Worker.length_run (w : Worker) (world : World) (url : String) :
    (w.run world url).length = w.bound.toNat := by
  simp [Worker.run_eq]

theorem spawnWorkers_eq (totalRequests concurrency : Int) (hC : concurrency ≠ 0) :
    spawnWorkers totalRequests concurrency =
      some ((List.range concurrency.toNat).map (fun i => Worker.mk i (totalRequests.tdiv concurrency)) ++
        if totalRequests.tmod concurrency > 0 then
          [Worker.mk concurrency.toNat (totalRequests.tmod concurrency)] else []) := by
  unfold spawnWorkers
  simp only [forLoop_collect, if_neg hC]
  split_ifs <;> simp

theorem makeChan_eq_some (world : World) (size : Int) (h0 : 0 ≤ size)
    (hmem : resultSize * size ≤ maxChanBytes) (hcap : size ≤ world.maxChanCap) :
    makeChan world size = some size.toNat := by
  unfold makeChan
  rw [if_neg (by omega)]

theorem makeChan_eq_none (world : World) (size : Int)
    (h : size < 0 ∨ resultSize * size > maxChanBytes ∨ size > world.maxChanCap) :
    makeChan world size = none := by
  unfold makeChan
  rw [if_pos h]

theorem runStressTest_eq_none (world : World) (url : String)
    (totalRequests concurrency : Int)
    (h : totalRequests < 0 ∨ resultSize * totalRequests > maxChanBytes ∨
      totalRequests > world.maxChanCap) :
    runStressTest world url totalRequests concurrency = none := by
  unfold runStressTest
  rw [makeChan_eq_none world totalRequests h]

/-! ## Map lookups and the aggregation step -/

namespace GoMap
variable {κ ν : Type} [DecidableEq κ]

theorem find_assign (m : GoMap κ ν) (k k' : κ) (v : ν) :
    find (assign m k v) k' = if k' = k then some v else find m k' := by
  induction m with
  | nil =>
    by_cases h : k' = k
    · simp [assign, find, h]
    · have h' : ¬ k = k' := fun e => h e.symm
      simp [assign, find, h, h']
  | cons e m ih =>
    obtain ⟨a, b⟩ := e
    by_cases ha : a = k
    · by_cases h : k' = k
      · simp [assign, find, ha, h]
      · have h' : ¬ k = k' := fun e => h e.symm
        simp [assign, find, ha, h, h']
    · by_cases h : k' = k
      · subst h
        simp [assign, find, ha, ih]
      · by_cases hak : a = k'
        · simp [assign, find, ha, h, hak]
        · simp [assign, find, ha, h, hak, ih]

theorem find_assign_self (m : GoMap κ ν) (k : κ) (v : ν) : find (assign m k v) k = some v := by
  simp [find_assign]

theorem find_assign_of_ne (m : GoMap κ ν) {k k' : κ} (v : ν) (h : k' ≠ k) :
    find (assign m k v) k' = find m k' := by
  simp [find_assign, h]

end GoMap

theorem aggregate_of_success (report : Report) (result : Result) (h : result.Error = none) :
    aggregate report result =
      { report with
        StatusCodes := GoMap.assign report.StatusCodes result.StatusCode
          (GoMap.index 0 report.StatusCodes result.StatusCode + 1) } := by
  simp [aggregate, h]

theorem aggregate_of_failure (report : Report) (result : Result) (h : result.Error ≠ none) :
    aggregate report result = { report with Errors := report.Errors + 1 } := by
  simp [aggregate, h]

theorem find_aggregate (report : Report) (r : Result) (k : Int) :
    GoMap.find (aggregate report r).StatusCodes k =
      if r.Error = none ∧ r.StatusCode = k then some (GoMap.index 0 report.StatusCodes k + 1)
      else GoMap.find report.StatusCodes k := by
  by_cases hE : r.Error = none
  · rw [aggregate_of_success _ _ hE]
    by_cases hk : r.StatusCode = k
    · subst hk
      simp [hE, GoMap.find_assign_self]
    · have hk' : k ≠ r.StatusCode := fun e => hk e.symm
      simp [hE, hk, GoMap.find_assign_of_ne _ _ hk']
  · rw [aggregate_of_failure _ _ hE]
    simp [hE]

theorem find_foldl_aggregate (rs : List Result) (report : Report) (k : Int) :
    GoMap.find (rs.foldl aggregate report).StatusCodes k =
      if rs.countP (fun r => decide (r.Error = none ∧ r.StatusCode = k)) = 0 then
        GoMap.find report.StatusCodes k
      else
        some (GoMap.index 0 report.StatusCodes k +
          rs.countP (fun r => decide (r.Error = none ∧ r.StatusCode = k))) := by
  induction rs generalizing report with
  | nil => simp
  | cons r rs ih =>
    rw [List.foldl_cons, ih, List.countP_cons]
    generalize List.countP (fun r => decide (r.Error = none ∧ r.StatusCode = k)) rs = n
    have hf := find_aggregate report r k
    by_cases h : r.Error = none ∧ r.StatusCode = k
    · rw [if_pos h] at hf
      have hd : decide (r.Error = none ∧ r.StatusCode = k) = true := by simp [h]
      rw [hd, if_pos rfl, if_neg (Nat.succ_ne_zero n)]
      simp only [GoMap.index, hf, Option.getD_some]
      by_cases h0 : n = 0
      · simp [h0]
      · rw [if_neg h0]
        congr 1
        push_cast
        ring
    · rw [if_neg h] at hf
      have hd : decide (r.Error = none ∧ r.StatusCode = k) = false := by simp [h]
      rw [hd]
      simp only [GoMap.index, hf, Bool.false_eq_true, if_false, Nat.add_zero]

theorem errors_foldl_aggregate (rs : List Result) (report : Report) :
    (rs.foldl aggregate report).Errors =
      report.Errors + rs.countP (fun r => decide (r.Error ≠ none)) := by
  induction rs generalizing report with
  | nil => simp
  | cons r rs ih =>
    rw [List.foldl_cons, ih, List.countP_cons]
    by_cases h : r.Error = none
    · rw [aggregate_of_success _ _ h]
      simp [h]
    · rw [aggregate_of_failure _ _ h]
      simp [h]
      ring

/-! ## Delivery through the channel -/

theorem popAt_perm {α : Type} (n : Nat) (qs : List (List α)) (x : α) (rest : List (List α))
    (h : popAt n qs = some (x, rest)) : qs.flatten.Perm (x :: rest.flatten) := by
  induction qs generalizing n rest with
  | nil => simp [popAt] at h
  | cons q qs ih =>
    cases n with
    | zero =>
      cases q with
      | nil => simp [popAt] at h
      | cons y q =>
        simp only [popAt, Option.some.injEq, Prod.mk.injEq] at h
        obtain ⟨rfl, rfl⟩ := h
        simp
    | succ n =>
      simp only [popAt, Option.map_eq_some'] at h
      obtain ⟨⟨y, rest'⟩, hp, he⟩ := h
      simp only [Prod.mk.injEq] at he
      obtain ⟨rfl, rfl⟩ := he
      have := ih n rest' hp
      simp only [List.flatten_cons]
      exact (List.Perm.append_left q this).trans List.perm_middle

theorem popAt_isSome {α : Type} (n : Nat) (qs : List (List α)) (hn : n < qs.length)
    (hne : ∀ q ∈ qs, q ≠ []) : ∃ p, popAt n qs = some p := by
  induction qs generalizing n with
  | nil => simp at hn
  | cons q qs ih =>
    cases n with
    | zero =>
      cases q with
      | nil => exact absurd rfl (hne [] (by simp))
      | cons y q => exact ⟨_, rfl⟩
    | succ n =>
      obtain ⟨p, hp⟩ := ih n (by simpa using hn) (fun q' hq' => hne q' (by simp [hq']))
      exact ⟨(p.1, q :: p.2), by simp [popAt, hp]⟩

theorem deliver_perm (sched : Nat → Nat) (fuel t : Nat) (queues : List (List Result))
    (h : queues.flatten.length ≤ fuel) : (deliver sched fuel t queues).Perm queues.flatten := by
  induction fuel generalizing t queues with
  | zero =>
    have : queues.flatten = [] := List.length_eq_zero.mp (by omega)
    simp [deliver, this]
  | succ fuel ih =>
    have hrun : (queues.filter fun q => !q.isEmpty).flatten = queues.flatten :=
      List.flatten_filter_not_isEmpty
    unfold deliver
    simp only
    generalize hR : (queues.filter fun q => !q.isEmpty) = running at hrun
    have hne : ∀ q ∈ running, q ≠ [] := by
      intro q hq
      rw [← hR, List.mem_filter] at hq
      intro hq'
      simp [hq'] at hq
    cases hrunning : running with
    | nil =>
      rw [hrunning] at hrun
      simp [popAt, ← hrun]
    | cons q0 qs0 =>
      rw [← hrunning]
      have hlt : sched t % running.length < running.length :=
        Nat.mod_lt _ (by rw [hrunning]; simp)
      obtain ⟨⟨r, rest⟩, hp⟩ := popAt_isSome _ running hlt hne
      rw [hp]
      have hperm := popAt_perm _ _ _ _ hp
      have hlen : rest.flatten.length ≤ fuel := by
        have := hperm.length_eq
        rw [hrun] at this
        simp only [List.length_cons] at this
        omega
      simp only
      rw [← hrun]
      exact ((ih (t + 1) rest hlen).cons r).trans hperm.symm

theorem channel_perm (world : World) (queues : List (List Result)) :
    (channel world queues).Perm queues.flatten := by
  unfold channel
  exact deliver_perm _ _ _ _ (by rw [List.length_flatten])

/-! ## The report of a run -/

theorem runStressTest_eq (world : World) (url : String) (totalRequests concurrency : Int)
    (workers : List Worker) (hR : 0 ≤ totalRequests)
    (hmem : resultSize * totalRequests ≤ maxChanBytes)
    (hcap : totalRequests ≤ world.maxChanCap)
    (hw : spawnWorkers totalRequests concurrency = some workers) :
    runStressTest world url totalRequests concurrency =
      some { (channel world (workers.map fun w => w.run world url)).foldl aggregate emptyReport
        with TotalTime := world.elapsed, TotalRequests := totalRequests } := by
  unfold runStressTest
  rw [makeChan_eq_some world totalRequests hR hmem hcap, hw]

theorem values_sum_assign_succ (m : GoMap Int Int) (k : Int) :
    (GoMap.values (GoMap.assign m k (GoMap.index 0 m k + 1))).sum = (GoMap.values m).sum + 1 := by
  induction m with
  | nil => simp [GoMap.assign, GoMap.index, GoMap.find, GoMap.values]
  | cons e m ih =>
    obtain ⟨a, b⟩ := e
    by_cases ha : a = k
    · simp [GoMap.assign, GoMap.index, GoMap.find, GoMap.values, ha]
      ring
    · have hi : GoMap.index 0 ((a, b) :: m) k = GoMap.index 0 m k := by
        simp [GoMap.index, GoMap.find, ha]
      rw [hi]
      simp only [GoMap.assign, if_neg ha, GoMap.values, List.map_cons, List.sum_cons] at ih ⊢
      rw [ih]
      ring

theorem sum_foldl_aggregate (rs : List Result) (report : Report) :
    (GoMap.values (rs.foldl aggregate report).StatusCodes).sum + (rs.foldl aggregate report).Errors =
      (GoMap.values report.StatusCodes).sum + report.Errors + rs.length := by
  induction rs generalizing report with
  | nil => simp
  | cons r rs ih =>
    rw [List.foldl_cons, ih]
    by_cases h : r.Error = none
    · rw [aggregate_of_success _ _ h]
      simp only [values_sum_assign_succ, List.length_cons]
      push_cast
      ring
    · rw [aggregate_of_failure _ _ h]
      simp only [List.length_cons]
      push_cast
      ring

theorem issued_total (world : World) (url : String) (totalRequests concurrency : Int)
    (hR : 0 ≤ totalRequests) (hC : 0 < concurrency) (workers : List Worker)
    (hw : spawnWorkers totalRequests concurrency = some workers) :
    (((workers.map fun w => (w.run world url).length).sum : Nat) : Int) = totalRequests := by
  rw [spawnWorkers_eq _ _ (by omega)] at hw
  simp only [Option.some.injEq] at hw
  subst hw
  have hd := Int.tdiv_nonneg hR hC.le
  have hm := Int.tmod_nonneg concurrency hR
  have hsum := Int.tdiv_add_tmod totalRequests concurrency
  have h1 : ((concurrency.toNat : Nat) : Int) = concurrency := Int.toNat_of_nonneg hC.le
  have h2 : (((totalRequests.tdiv concurrency).toNat : Nat) : Int) = totalRequests.tdiv concurrency :=
    Int.toNat_of_nonneg hd
  have h3 : (((totalRequests.tmod concurrency).toNat : Nat) : Int) = totalRequests.tmod concurrency :=
    Int.toNat_of_nonneg hm
  split_ifs with hrem
  · simp [Worker.length_run, Function.comp_def, h1, h2, h3, hsum]
  · have h0 : totalRequests.tmod concurrency = 0 := by omega
    rw [h0] at hsum
    simp [Worker.length_run, Function.comp_def, h1, h2]
    omega

theorem length_channel (world : World) (queues : List (List Result)) :
    (channel world queues).length = (queues.map List.length).sum := by
  rw [(channel_perm world queues).length_eq, List.length_flatten]

theorem foldl_aggregate_all_ok (rs : List Result)
    (h : ∀ r ∈ rs, r.Error = none ∧ r.StatusCode = 200) (report : Report) (n : Int)
    (hrep : report.StatusCodes = [(200, n)]) :
    rs.foldl aggregate report = { report with StatusCodes := [(200, n + rs.length)] } := by
  induction rs generalizing report n with
  | nil => simp [← hrep]
  | cons r rs ih =>
    obtain ⟨hE, hS⟩ := h r (by simp)
    have hstep : aggregate report r = { report with StatusCodes := [(200, n + 1)] } := by
      rw [aggregate_of_success _ _ hE, hS, hrep]
      simp [GoMap.assign, GoMap.index, GoMap.find]
    rw [List.foldl_cons, hstep, ih (fun r' hr' => h r' (by simp [hr'])) _ (n + 1) rfl]
    simp only [List.length_cons]
    push_cast
    congr 3
    ring

/-! ## Grouping by category -/

namespace GoMap
variable {κ ν : Type} [DecidableEq κ]

theorem mem_keys_assign (m : GoMap κ ν) (k k' : κ) (v : ν) :
    k' ∈ keys (assign m k v) ↔ k' = k ∨ k' ∈ keys m := by
  induction m with
  | nil => simp [assign, keys]
  | cons e m ih =>
    obtain ⟨a, b⟩ := e
    by_cases ha : a = k
    · subst ha
      simp [assign, keys]
    · simp only [keys, assign, if_neg ha, List.map_cons, List.mem_cons] at ih ⊢
      rw [ih]
      tauto

theorem nodup_keys_assign (m : GoMap κ ν) (k : κ) (v : ν) (h : (keys m).Nodup) :
    (keys (assign m k v)).Nodup := by
  induction m with
  | nil => simp [assign, keys]
  | cons e m ih =>
    obtain ⟨a, b⟩ := e
    simp only [keys, List.map_cons, List.nodup_cons] at h
    by_cases ha : a = k
    · subst ha
      simpa [assign, keys] using h
    · have hmem := mem_keys_assign m k a v
      simp only [keys] at hmem ih
      simp only [keys, assign, if_neg ha, List.map_cons, List.nodup_cons]
      refine ⟨?_, ih h.2⟩
      rw [hmem]
      rintro (h' | h')
      · exact ha h'
      · exact h.1 h'

theorem mem_keys_iff_find (m : GoMap κ ν) (k : κ) : k ∈ keys m ↔ ∃ v, find m k = some v := by
  induction m with
  | nil => simp [keys, find]
  | cons e m ih =>
    obtain ⟨a, b⟩ := e
    by_cases ha : a = k
    · subst ha
      simp [keys, find]
    · have ha' : ¬ k = a := fun e => ha e.symm
      simp only [keys, find, if_neg ha, List.map_cons, List.mem_cons, ha', false_or] at ih ⊢
      exact ih

theorem find_eq_none_iff (m : GoMap κ ν) (k : κ) : find m k = none ↔ k ∉ keys m := by
  rw [mem_keys_iff_find]
  cases find m k <;> simp

end GoMap

theorem index_groupStep (categories : GoMap String (GoMap Int Int)) (entry : Int × Int)
    (c : String) :
    GoMap.index [] (groupStep categories entry) c =
      if c = getStatusCategory entry.1 then
        GoMap.assign (GoMap.index [] categories (getStatusCategory entry.1)) entry.1 entry.2
      else GoMap.index [] categories c := by
  unfold groupStep
  simp only [GoMap.index, GoMap.find_assign]
  by_cases hc : c = getStatusCategory entry.1
  · subst hc
    by_cases hn : GoMap.find categories (getStatusCategory entry.1) = none
    · simp [hn, GoMap.find_assign]
    · simp [hn]
  · by_cases hn : GoMap.find categories (getStatusCategory entry.1) = none
    · simp [hn, hc, GoMap.find_assign]
    · simp [hn, hc]

theorem mem_keys_groupStep (categories : GoMap String (GoMap Int Int)) (entry : Int × Int)
    (c : String) :
    c ∈ GoMap.keys (groupStep categories entry) ↔
      c = getStatusCategory entry.1 ∨ c ∈ GoMap.keys categories := by
  unfold groupStep
  simp only [GoMap.mem_keys_assign]
  by_cases hn : GoMap.find categories (getStatusCategory entry.1) = none
  · simp [hn, GoMap.mem_keys_assign]
  · simp [hn]

theorem nodup_keys_groupStep (categories : GoMap String (GoMap Int Int)) (entry : Int × Int)
    (h : (GoMap.keys categories).Nodup) : (GoMap.keys (groupStep categories entry)).Nodup := by
  unfold groupStep
  simp only
  apply GoMap.nodup_keys_assign
  by_cases hn : GoMap.find categories (getStatusCategory entry.1) = none
  · simp only [hn, if_true]
    exact GoMap.nodup_keys_assign _ _ _ h
  · simp only [hn, if_false]
    exact h

theorem grouped_step (seen : List (Int × Int)) (categories : GoMap String (GoMap Int Int))
    (entry : Int × Int) (hnew : entry.1 ∉ GoMap.keys seen) (h : Grouped seen categories) :
    Grouped (seen ++ [entry]) (groupStep categories entry) := by
  obtain ⟨hnd, hkeys, hinner⟩ := h
  refine ⟨nodup_keys_groupStep _ _ hnd, ?_, ?_⟩
  · intro c
    rw [mem_keys_groupStep, hkeys]
    constructor
    · rintro (rfl | ⟨e, he, hc⟩)
      · exact ⟨entry, by simp, rfl⟩
      · exact ⟨e, by simp [he], hc⟩
    · rintro ⟨e, he, hc⟩
      rw [List.mem_append, List.mem_singleton] at he
      rcases he with he | rfl
      · exact Or.inr ⟨e, he, hc⟩
      · exact Or.inl hc.symm
  · intro c
    rw [index_groupStep]
    by_cases hc : c = getStatusCategory entry.1
    · subst hc
      rw [if_pos rfl]
      obtain ⟨hnd0, hfind0⟩ := hinner (getStatusCategory entry.1)
      refine ⟨GoMap.nodup_keys_assign _ _ _ hnd0, ?_⟩
      intro code count
      rw [GoMap.find_assign, List.mem_append, List.mem_singleton]
      by_cases hcode : code = entry.1
      · subst hcode
        rw [if_pos rfl]
        constructor
        · intro hs
          simp only [Option.some.injEq] at hs
          subst hs
          exact ⟨Or.inr rfl, rfl⟩
        · rintro ⟨hm | hm, _⟩
          · exact absurd (List.mem_map_of_mem Prod.fst hm) hnew
          · rw [Prod.ext_iff] at hm
            have h2 : count = entry.2 := hm.2
            rw [h2]
      · rw [if_neg hcode, hfind0]
        constructor
        · rintro ⟨hm, hcat⟩
          exact ⟨Or.inl hm, hcat⟩
        · rintro ⟨hm | hm, hcat⟩
          · exact ⟨hm, hcat⟩
          · rw [Prod.ext_iff] at hm
            exact absurd (show code = entry.1 from hm.1) hcode
    · rw [if_neg hc]
      obtain ⟨hnd0, hfind0⟩ := hinner c
      refine ⟨hnd0, ?_⟩
      intro code count
      rw [hfind0, List.mem_append, List.mem_singleton]
      constructor
      · rintro ⟨hm, hcat⟩
        exact ⟨Or.inl hm, hcat⟩
      · rintro ⟨hm | hm, hcat⟩
        · exact ⟨hm, hcat⟩
        · rw [Prod.ext_iff] at hm
          have h1 : code = entry.1 := hm.1
          rw [h1] at hcat
          exact absurd hcat.symm hc

theorem grouped_foldl (rest seen : List (Int × Int))
    (categories : GoMap String (GoMap Int Int)) (hnd : (GoMap.keys (seen ++ rest)).Nodup)
    (h : Grouped seen categories) : Grouped (seen ++ rest) (rest.foldl groupStep categories) := by
  induction rest generalizing seen categories with
  | nil => simpa using h
  | cons e rest ih =>
    have hnew : e.1 ∉ GoMap.keys seen := by
      simp only [GoMap.keys, List.map_append, List.map_cons] at hnd
      have := (List.nodup_append.mp hnd).2.2
      intro hmem
      exact this hmem (by simp)
    have := ih (seen ++ [e]) (groupStep categories e) (by simpa using hnd)
      (grouped_step seen categories e hnew h)
    simpa using this

theorem grouped_groupByCategory (statusCodes : GoMap Int Int)
    (hnd : (GoMap.keys statusCodes).Nodup) : Grouped statusCodes (groupByCategory statusCodes) := by
  have h0 : Grouped [] [] := by
    refine ⟨by simp [GoMap.keys], by simp [GoMap.keys], ?_⟩
    intro c
    simp [GoMap.index, GoMap.find, GoMap.keys]
  simpa [groupByCategory] using grouped_foldl statusCodes [] [] (by simpa using hnd) h0

theorem GoMap.find_of_mem {κ ν : Type} [DecidableEq κ] (m : GoMap κ ν) (k : κ) (v : ν)
    (hnd : (GoMap.keys m).Nodup) (h : (k, v) ∈ m) : GoMap.find m k = some v := by
  induction m with
  | nil => simp at h
  | cons e m ih =>
    obtain ⟨a, b⟩ := e
    simp only [GoMap.keys, List.map_cons, List.nodup_cons] at hnd
    rw [List.mem_cons] at h
    rcases h with h | h
    · rw [Prod.ext_iff] at h
      have h1 : k = a := h.1
      have h2 : v = b := h.2
      subst h1 h2
      simp [GoMap.find]
    · have hne : a ≠ k := by
        rintro rfl
        exact hnd.1 (List.mem_map_of_mem Prod.fst h)
      simp only [GoMap.find, if_neg hne]
      exact ih hnd.2 h

theorem GoMap.index_of_find {κ ν : Type} [DecidableEq κ] (zero : ν) (m : GoMap κ ν) (k : κ)
    (v : ν) (h : GoMap.find m k = some v) : GoMap.index zero m k = v := by
  simp [GoMap.index, h]

theorem sorted_lt_insertionSort {α : Type} [LinearOrder α] (l : List α) (h : l.Nodup) :
    (List.insertionSort (· ≤ ·) l).Sorted (· < ·) :=
  (List.sorted_insertionSort (· ≤ ·) l).lt_of_le
    ((List.perm_insertionSort (· ≤ ·) l).nodup_iff.mpr h)

/-! ## Maps as sets of entries, and the range of the counters -/

theorem GoMap.mem_of_find {κ ν : Type} [DecidableEq κ] (m : GoMap κ ν) (k : κ) (v : ν)
    (h : GoMap.find m k = some v) : (k, v) ∈ m := by
  induction m with
  | nil => simp [GoMap.find] at h
  | cons e m ih =>
    obtain ⟨a, b⟩ := e
    by_cases ha : a = k
    · simp only [GoMap.find, if_pos ha, Option.some.injEq] at h
      subst ha h
      simp
    · simp only [GoMap.find, if_neg ha] at h
      exact List.mem_cons_of_mem _ (ih h)

theorem nodup_keys_foldl_aggregate (rs : List Result) (report : Report)
    (h : (GoMap.keys report.StatusCodes).Nodup) :
    (GoMap.keys (rs.foldl aggregate report).StatusCodes).Nodup := by
  induction rs generalizing report with
  | nil => simpa using h
  | cons r rs ih =>
    rw [List.foldl_cons]
    apply ih
    by_cases hE : r.Error = none
    · rw [aggregate_of_success _ _ hE]
      exact GoMap.nodup_keys_assign _ _ _ h
    · rw [aggregate_of_failure _ _ hE]
      exact h

theorem GoMap.perm_of_find_eq {κ ν : Type} [DecidableEq κ] (m m' : GoMap κ ν)
    (hm : (GoMap.keys m).Nodup) (hm' : (GoMap.keys m').Nodup)
    (h : ∀ k, GoMap.find m k = GoMap.find m' k) : m.Perm m' := by
  rw [List.perm_ext_iff_of_nodup (List.Nodup.of_map Prod.fst hm) (List.Nodup.of_map Prod.fst hm')]
  rintro ⟨k, v⟩
  constructor
  · intro hmem
    exact GoMap.mem_of_find _ _ _ (by rw [← h]; exact GoMap.find_of_mem _ _ _ hm hmem)
  · intro hmem
    exact GoMap.mem_of_find _ _ _ (by rw [h]; exact GoMap.find_of_mem _ _ _ hm' hmem)

theorem values_pos_assign_succ (m : GoMap Int Int) (k : Int) (h : ∀ e ∈ m, 1 ≤ e.2) :
    ∀ e ∈ GoMap.assign m k (GoMap.index 0 m k + 1), 1 ≤ e.2 := by
  induction m with
  | nil =>
    intro e he
    simp only [GoMap.assign, GoMap.index, GoMap.find, List.mem_singleton] at he
    subst he
    simp
  | cons e0 m ih =>
    obtain ⟨a, b⟩ := e0
    have hb : 1 ≤ b := h (a, b) (by simp)
    have hm : ∀ e ∈ m, 1 ≤ e.2 := fun e he => h e (List.mem_cons_of_mem _ he)
    intro e he
    by_cases ha : a = k
    · simp only [GoMap.assign, GoMap.index, GoMap.find, if_pos ha, Option.getD_some,
        List.mem_cons] at he
      rcases he with rfl | he
      · show 1 ≤ b + 1
        omega
      · exact hm e he
    · have hi : GoMap.index 0 ((a, b) :: m) k = GoMap.index 0 m k := by
        simp [GoMap.index, GoMap.find, ha]
      rw [hi] at he
      simp only [GoMap.assign, if_neg ha, List.mem_cons] at he
      rcases he with rfl | he
      · exact hb
      · exact ih hm e he

theorem counters_foldl_aggregate (rs : List Result) (report : Report)
    (hE : 0 ≤ report.Errors) (hS : ∀ e ∈ report.StatusCodes, 1 ≤ e.2) :
    0 ≤ (rs.foldl aggregate report).Errors ∧
      ∀ e ∈ (rs.foldl aggregate report).StatusCodes, 1 ≤ e.2 := by
  induction rs generalizing report with
  | nil => exact ⟨hE, hS⟩
  | cons r rs ih =>
    rw [List.foldl_cons]
    by_cases h : r.Error = none
    · rw [aggregate_of_success _ _ h]
      exact ih _ hE (values_pos_assign_succ _ _ hS)
    · rw [aggregate_of_failure _ _ h]
      exact ih _ (by show 0 ≤ report.Errors + 1; omega) hS

/-- The counters of a returned report stay within `0 .. totalRequests`, and
`totalRequests` is below `2^43`: no increment of the aggregation loop can leave the range of
a Go `int`. -/
theorem runStressTest_counters_bounded (world : World) (url : String)
    (totalRequests concurrency : Int) (hR : 0 ≤ totalRequests) (hC : 0 < concurrency)
    (report : Report) (h : runStressTest world url totalRequests concurrency = some report) :
    totalRequests < 8796093022208 ∧ 0 ≤ report.Errors ∧ report.Errors ≤ totalRequests ∧
      ∀ e ∈ report.StatusCodes, 1 ≤ e.2 ∧ e.2 ≤ totalRequests := by
  obtain ⟨workers, hw⟩ : ∃ ws, spawnWorkers totalRequests concurrency = some ws :=
    ⟨_, spawnWorkers_eq _ _ (by omega)⟩
  have hissued := issued_total world url totalRequests concurrency hR hC workers hw
  have hmem : resultSize * totalRequests ≤ maxChanBytes := by
    by_contra hn
    rw [runStressTest_eq_none world url _ _ (Or.inr (Or.inl (by omega)))] at h
    cases h
  have hcap : totalRequests ≤ world.maxChanCap := by
    by_contra hn
    rw [runStressTest_eq_none world url _ _ (Or.inr (Or.inr (by omega)))] at h
    cases h
  rw [runStressTest_eq world url _ _ workers hR hmem hcap hw, Option.some.injEq] at h
  subst h
  simp only
  have hsum := sum_foldl_aggregate (channel world (workers.map fun w => w.run world url))
    emptyReport
  rw [length_channel, List.map_map] at hsum
  have hzero : (GoMap.values emptyReport.StatusCodes).sum + emptyReport.Errors = 0 := by decide
  rw [hzero, zero_add] at hsum
  have hsum' := hsum.trans hissued
  obtain ⟨h0, h1⟩ := counters_foldl_aggregate
    (channel world (workers.map fun w => w.run world url)) emptyReport (by decide)
    (by simp [emptyReport])
  generalize List.foldl aggregate emptyReport
    (channel world (workers.map fun w => w.run world url)) = rep at hsum' h0 h1
  have hnn : ∀ v ∈ GoMap.values rep.StatusCodes, 0 ≤ v := by
    intro v hv
    simp only [GoMap.values, List.mem_map] at hv
    obtain ⟨e, he, rfl⟩ := hv
    have := h1 e he
    omega
  have hs0 := List.sum_nonneg hnn
  have hbig : totalRequests < 8796093022208 := by
    simp only [resultSize, maxChanBytes] at hmem
    omega
  refine ⟨hbig, h0, by omega, ?_⟩
  intro e he
  refine ⟨h1 e he, ?_⟩
  have hle := List.single_le_sum hnn e.2 (by
    simp only [GoMap.values, List.mem_map]
    exact ⟨e, he, rfl⟩)
  omega

/-! # The claims -/

/-! ## The load driver -/

/-- Claim C1, as the code has it: for every total request count `R > 0` for which
`make(chan Result, R)` succeeds (a buffer within the allocation limit of the runtime and
within what the allocator grants), every concurrency `C` with `1 ≤ C ≤ R`, every outcome of
the individual requests and every interleaving of the workers, `runStressTest` returns a
report whose status-code counts and `Errors` add up to `R`; the spawned workers issue
`C * (R / C) + R % C = R` requests in total and the aggregation loop receives each of their
results exactly once. -/
theorem runStressTest_counts_every_request (world : World) (url : String)
    (totalRequests concurrency : Int) (hR : 0 < totalRequests) (h1 : 1 ≤ concurrency)
    (_h2 : concurrency ≤ totalRequests)
    (hmem : resultSize * totalRequests ≤ maxChanBytes)
    (hcap : totalRequests ≤ world.maxChanCap) :
    ∃ report workers,
      runStressTest world url totalRequests concurrency = some report ∧
      (GoMap.values report.StatusCodes).sum + report.Errors = totalRequests ∧
      report.TotalRequests = totalRequests ∧
      spawnWorkers totalRequests concurrency = some workers ∧
      (((workers.map fun w => (w.run world url).length).sum : Nat) : Int) = totalRequests ∧
      concurrency * (totalRequests / concurrency) + totalRequests % concurrency = totalRequests ∧
      (channel world (workers.map fun w => w.run world url)).Perm
        (workers.map fun w => w.run world url).flatten := by
  obtain ⟨workers, hw⟩ : ∃ ws, spawnWorkers totalRequests concurrency = some ws :=
    ⟨_, spawnWorkers_eq _ _ (by omega)⟩
  have hissued := issued_total world url totalRequests concurrency hR.le (by omega) workers hw
  refine ⟨_, workers, runStressTest_eq world url _ _ workers hR.le hmem hcap hw, ?_, rfl, hw, hissued,
    Int.ediv_add_emod _ _, channel_perm _ _⟩
  simp only
  rw [sum_foldl_aggregate, length_channel, List.map_map]
  simp only [emptyReport, GoMap.values, List.map_nil, List.sum_nil, zero_add]
  exact hissued

/-- Ten requests over three workers against the flaky server: the counts add up to ten. -/
theorem runStressTest_counts_every_request_witness :
    ((0 : Int) < 10 ∧ (1 : Int) ≤ 3 ∧ (3 : Int) ≤ 10 ∧
        (resultSize : Int) * 10 ≤ maxChanBytes ∧ (10 : Int) ≤ flakyWorld.maxChanCap) ∧
      ∃ report, runStressTest flakyWorld "http://localhost:8080" 10 3 = some report ∧
        (GoMap.values report.StatusCodes).sum + report.Errors = 10 := by
  refine ⟨by decide, ?_⟩
  obtain ⟨report, _, hrun, hsum, _⟩ :=
    runStressTest_counts_every_request flakyWorld "http://localhost:8080" 10 3
      (by decide) (by decide) (by decide) (by decide) (by decide)
  exact ⟨report, hrun, hsum⟩

/-- Claim C1 as stated fails: `R = 2^62`, `C = 1` satisfy `R > 0` and `1 ≤ C ≤ R`, but
`make(chan Result, R)` panics and `runStressTest` returns no report. -/
theorem runStressTest_counts_every_request_fails_when_channel_too_large :
    ((0 : Int) < 4611686018427387904 ∧ (1 : Int) ≤ 1 ∧ (1 : Int) ≤ 4611686018427387904) ∧
      makeChan flakyWorld 4611686018427387904 = none ∧
      runStressTest flakyWorld "http://localhost:8080" 4611686018427387904 1 = none :=
  ⟨by decide, by decide, by decide⟩

/-- Claim C2, as the code has it: when `R > 0`, `1 ≤ C ≤ R`, `R % C = 0` and
`make(chan Result, R)` succeeds (a buffer within the allocation limit of the runtime and
within what the allocator grants), `runStressTest` starts exactly `C` workers, no remainder
worker, each of them issues exactly `R / C` requests, and the run returns the report
aggregated from their results. -/
theorem runStressTest_even_split (world : World) (url : String)
    (totalRequests concurrency : Int) (hR : 0 < totalRequests) (h1 : 1 ≤ concurrency)
    (_h2 : concurrency ≤ totalRequests) (hdiv : totalRequests % concurrency = 0)
    (hmem : resultSize * totalRequests ≤ maxChanBytes)
    (hcap : totalRequests ≤ world.maxChanCap) :
    ∃ workers,
      spawnWorkers totalRequests concurrency = some workers ∧
      runStressTest world url totalRequests concurrency =
        some { (channel world (workers.map fun w => w.run world url)).foldl aggregate emptyReport
          with TotalTime := world.elapsed, TotalRequests := totalRequests } ∧
      (workers.length : Int) = concurrency ∧
      ∀ w ∈ workers, ((w.run world url).length : Int) = totalRequests / concurrency := by
  have hmod : totalRequests.tmod concurrency = 0 := by
    rw [Int.tmod_eq_emod hR.le (by omega)]; exact hdiv
  have hw := spawnWorkers_eq totalRequests concurrency (by omega)
  rw [hmod, if_neg (by decide), List.append_nil] at hw
  refine ⟨_, hw, runStressTest_eq world url _ _ _ hR.le hmem hcap hw, ?_, ?_⟩
  · simp only [List.length_map, List.length_range]
    exact Int.toNat_of_nonneg (by omega)
  · intro w hwm
    simp only [List.mem_map, List.mem_range] at hwm
    obtain ⟨i, _, rfl⟩ := hwm
    rw [Worker.length_run, ← Int.tdiv_eq_ediv hR.le (by omega)]
    exact Int.toNat_of_nonneg (Int.tdiv_nonneg hR.le (by omega))

/-- A hundred requests over ten workers: ten workers of ten requests. -/
theorem runStressTest_even_split_witness :
    ((0 : Int) < 100 ∧ (1 : Int) ≤ 10 ∧ (10 : Int) ≤ 100 ∧ (100 : Int) % 10 = 0 ∧
        (resultSize : Int) * 100 ≤ maxChanBytes ∧ (100 : Int) ≤ steadyWorld.maxChanCap) ∧
      ∃ workers, spawnWorkers 100 10 = some workers ∧
        runStressTest steadyWorld "http://localhost:8080" 100 10 =
          some { (channel steadyWorld
              (workers.map fun w => w.run steadyWorld "http://localhost:8080")).foldl
                aggregate emptyReport
            with TotalTime := steadyWorld.elapsed, TotalRequests := 100 } ∧
        (workers.length : Int) = 10 ∧
        ∀ w ∈ workers, ((w.run steadyWorld "http://localhost:8080").length : Int) = 100 / 10 :=
  ⟨by decide,
    runStressTest_even_split steadyWorld "http://localhost:8080" 100 10
      (by decide) (by decide) (by decide) (by decide) (by decide) (by decide)⟩

/-- Claim C2 as stated fails: `R = 2^62`, `C = 1` satisfy `R > 0`, `1 ≤ C ≤ R` and
`R % C = 0`, but `make(chan Result, R)` panics before the first worker is started. -/
theorem runStressTest_even_split_fails_when_channel_too_large :
    ((0 : Int) < 4611686018427387904 ∧ (1 : Int) ≤ 1 ∧ (1 : Int) ≤ 4611686018427387904 ∧
        (4611686018427387904 : Int) % 1 = 0) ∧
      makeChan steadyWorld 4611686018427387904 = none ∧
      runStressTest steadyWorld "http://localhost:8080" 4611686018427387904 1 = none :=
  ⟨by decide, by decide, by decide⟩

/-- Claim C3, as the code has it: when `R > 0`, `1 ≤ C ≤ R`, `R % C ≠ 0` and
`make(chan Result, R)` succeeds (a buffer within the allocation limit of the runtime and
within what the allocator grants), `runStressTest` starts exactly `C + 1` workers: `C`
workers that each issue `R / C` requests and one extra worker that issues `R % C` requests,
where `0 < R % C < C`, and the run returns the report aggregated from their results.  For
`R = 10`, `C = 3` these are three workers of three requests and one worker of one
request. -/
theorem runStressTest_uneven_split (world : World) (url : String)
    (totalRequests concurrency : Int) (hR : 0 < totalRequests) (h1 : 1 ≤ concurrency)
    (_h2 : concurrency ≤ totalRequests) (hrem : totalRequests % concurrency ≠ 0)
    (hmem : resultSize * totalRequests ≤ maxChanBytes)
    (hcap : totalRequests ≤ world.maxChanCap) :
    ∃ pool extra,
      spawnWorkers totalRequests concurrency = some (pool ++ [extra]) ∧
      runStressTest world url totalRequests concurrency =
        some { (channel world ((pool ++ [extra]).map fun w => w.run world url)).foldl
            aggregate emptyReport
          with TotalTime := world.elapsed, TotalRequests := totalRequests } ∧
      ((pool ++ [extra]).length : Int) = concurrency + 1 ∧
      (pool.length : Int) = concurrency ∧
      (∀ w ∈ pool, ((w.run world url).length : Int) = totalRequests / concurrency) ∧
      ((extra.run world url).length : Int) = totalRequests % concurrency ∧
      0 < totalRequests % concurrency ∧ totalRequests % concurrency < concurrency ∧
      spawnWorkers 10 3 = some [⟨0, 3⟩, ⟨1, 3⟩, ⟨2, 3⟩, ⟨3, 1⟩] := by
  have hpos : 0 < totalRequests % concurrency := by
    have := Int.emod_nonneg totalRequests (show concurrency ≠ 0 by omega)
    omega
  have hlt : totalRequests % concurrency < concurrency := Int.emod_lt_of_pos _ (by omega)
  have hmod : totalRequests.tmod concurrency = totalRequests % concurrency :=
    Int.tmod_eq_emod hR.le (by omega)
  have hw := spawnWorkers_eq totalRequests concurrency (by omega)
  rw [hmod, if_pos hpos] at hw
  have hlen : (((List.range concurrency.toNat).map
      (fun i => Worker.mk i (totalRequests.tdiv concurrency))).length : Int) = concurrency := by
    simp only [List.length_map, List.length_range]
    exact Int.toNat_of_nonneg (by omega)
  refine ⟨_, _, hw, runStressTest_eq world url _ _ _ hR.le hmem hcap hw, ?_, hlen, ?_, ?_, hpos, hlt,
    by decide⟩
  · rw [List.length_append, List.length_singleton]
    push_cast
    rw [hlen]
  · intro w hwm
    simp only [List.mem_map, List.mem_range] at hwm
    obtain ⟨i, _, rfl⟩ := hwm
    rw [Worker.length_run, ← Int.tdiv_eq_ediv hR.le (by omega)]
    exact Int.toNat_of_nonneg (Int.tdiv_nonneg hR.le (by omega))
  · rw [Worker.length_run]
    exact Int.toNat_of_nonneg hpos.le

/-- Ten requests over three workers: three workers of three requests and one of one. -/
theorem runStressTest_uneven_split_witness :
    ((0 : Int) < 10 ∧ (1 : Int) ≤ 3 ∧ (3 : Int) ≤ 10 ∧ (10 : Int) % 3 ≠ 0 ∧
        (resultSize : Int) * 10 ≤ maxChanBytes ∧ (10 : Int) ≤ flakyWorld.maxChanCap) ∧
      ∃ pool extra, spawnWorkers 10 3 = some (pool ++ [extra]) ∧
        (∃ report, runStressTest flakyWorld "http://localhost:8080" 10 3 = some report) ∧
        ((pool ++ [extra]).length : Int) = 3 + 1 ∧
        (∀ w ∈ pool, ((w.run flakyWorld "http://localhost:8080").length : Int) = 10 / 3) ∧
        ((extra.run flakyWorld "http://localhost:8080").length : Int) = 10 % 3 := by
  refine ⟨by decide, ?_⟩
  obtain ⟨pool, extra, hw, hrun, hlen, _, hpool, hextra, _⟩ :=
    runStressTest_uneven_split flakyWorld "http://localhost:8080" 10 3
      (by decide) (by decide) (by decide) (by decide) (by decide) (by decide)
  exact ⟨pool, extra, hw, ⟨_, hrun⟩, hlen, hpool, hextra⟩

/-- Claim C3 as stated fails: `R = 2^62 + 1`, `C = 2` satisfy `R > 0`, `1 ≤ C ≤ R` and
`R % C ≠ 0`, but `make(chan Result, R)` panics before the first worker is started. -/
theorem runStressTest_uneven_split_fails_when_channel_too_large :
    ((0 : Int) < 4611686018427387905 ∧ (1 : Int) ≤ 2 ∧ (2 : Int) ≤ 4611686018427387905 ∧
        (4611686018427387905 : Int) % 2 ≠ 0) ∧
      makeChan flakyWorld 4611686018427387905 = none ∧
      runStressTest flakyWorld "http://localhost:8080" 4611686018427387905 2 = none :=
  ⟨by decide, by decide, by decide⟩

/-- Claim C8, as the code has it: when `R > 0`, `1 ≤ C ≤ R`, `make(chan Result, R)`
succeeds (a buffer within the allocation limit of the runtime and within what the allocator
grants) and every request is answered with status 200, `runStressTest` returns a report with
`TotalRequests = R`, `StatusCodes = {200: R}` and `Errors = 0`. -/
theorem runStressTest_all_200 (world : World) (url : String) (totalRequests concurrency : Int)
    (hR : 0 < totalRequests) (h1 : 1 ≤ concurrency) (_h2 : concurrency ≤ totalRequests)
    (hmem : resultSize * totalRequests ≤ maxChanBytes)
    (hcap : totalRequests ≤ world.maxChanCap)
    (hok : ∀ i j, (world.httpGet i j url).reply = Except.ok ⟨200⟩) :
    runStressTest world url totalRequests concurrency =
      some { TotalTime := world.elapsed, TotalRequests := totalRequests,
             StatusCodes := [(200, totalRequests)], Errors := 0 } := by
  obtain ⟨workers, hw⟩ : ∃ ws, spawnWorkers totalRequests concurrency = some ws :=
    ⟨_, spawnWorkers_eq _ _ (by omega)⟩
  have hissued := issued_total world url totalRequests concurrency hR.le (by omega) workers hw
  rw [runStressTest_eq world url _ _ workers hR.le hmem hcap hw]
  have hall : ∀ r ∈ channel world (workers.map fun w => w.run world url),
      r.Error = none ∧ r.StatusCode = 200 := by
    intro r hr
    rw [(channel_perm world _).mem_iff] at hr
    simp only [List.mem_flatten, List.mem_map] at hr
    obtain ⟨q, ⟨w, _, rfl⟩, hrq⟩ := hr
    rw [Worker.run_eq, List.mem_map] at hrq
    obtain ⟨j, _, rfl⟩ := hrq
    simp [makeRequest, hok]
  have hlen : ((channel world (workers.map fun w => w.run world url)).length : Int) =
      totalRequests := by
    rw [length_channel, List.map_map]
    exact hissued
  cases hch : channel world (workers.map fun w => w.run world url) with
  | nil =>
    rw [hch] at hlen
    simp at hlen
    omega
  | cons r rs =>
    rw [hch] at hall hlen
    obtain ⟨hE, hS⟩ := hall r (by simp)
    have hstep : aggregate emptyReport r = { emptyReport with StatusCodes := [(200, 1)] } := by
      rw [aggregate_of_success _ _ hE, hS]
      simp [emptyReport, GoMap.assign, GoMap.index, GoMap.find]
    rw [List.foldl_cons, hstep,
      foldl_aggregate_all_ok rs (fun r' hr' => hall r' (by simp [hr'])) _ 1 rfl]
    simp only [List.length_cons] at hlen
    push_cast at hlen
    have e : (1 : Int) + (rs.length : Int) = totalRequests := by omega
    rw [e]
    rfl

/-- A hundred requests over ten workers against a server that always answers 200. -/
theorem runStressTest_all_200_witness :
    runStressTest steadyWorld "http://localhost:8080" 100 10 =
      some { TotalTime := 25, TotalRequests := 100, StatusCodes := [(200, 100)], Errors := 0 } :=
  runStressTest_all_200 steadyWorld "http://localhost:8080" 100 10
    (by decide) (by decide) (by decide) (by decide) (by decide) (fun _ _ => rfl)

/-- Claim C8 as stated fails: `R = 2^43`, `C = 1` satisfy `R > 0` and `1 ≤ C ≤ R` and every
request would be answered with 200, but `make(chan Result, R)` panics and no report is
returned. -/
theorem runStressTest_all_200_fails_when_channel_too_large :
    ((0 : Int) < 8796093022208 ∧ (1 : Int) ≤ 1 ∧ (1 : Int) ≤ 8796093022208) ∧
      (∀ i j, (steadyWorld.httpGet i j "http://localhost:8080").reply = Except.ok ⟨200⟩) ∧
      makeChan steadyWorld 8796093022208 = none ∧
      runStressTest steadyWorld "http://localhost:8080" 8796093022208 1 = none :=
  ⟨by decide, fun _ _ => rfl, by decide, by decide⟩

/-! ## The aggregation loop -/

/-- Claim C4: for a result whose `Error` is nil, whatever its status code `s`, one step of
the aggregation loop raises `StatusCodes[s]` by exactly one, leaves `Errors` unchanged and
leaves the entry of every other status code unchanged; a response that `http.Get` returns
without error, 4xx and 5xx included, is never counted as an error. -/
theorem aggregate_status_counted (report : Report) (result : Result)
    (h : result.Error = none) :
    GoMap.find (aggregate report result).StatusCodes result.StatusCode =
        some (GoMap.index 0 report.StatusCodes result.StatusCode + 1) ∧
      GoMap.index 0 (aggregate report result).StatusCodes result.StatusCode =
        GoMap.index 0 report.StatusCodes result.StatusCode + 1 ∧
      (aggregate report result).Errors = report.Errors ∧
      (∀ k, k ≠ result.StatusCode →
        GoMap.find (aggregate report result).StatusCodes k = GoMap.find report.StatusCodes k) ∧
      (∀ (httpGet : String → GetOutcome) (url : String) (resp : Response),
        (httpGet url).reply = Except.ok resp →
          (makeRequest httpGet url).Error = none ∧
          (makeRequest httpGet url).StatusCode = resp.StatusCode ∧
          (aggregate report (makeRequest httpGet url)).Errors = report.Errors) := by
  rw [aggregate_of_success report result h]
  refine ⟨?_, ?_, rfl, ?_, ?_⟩
  · simp [GoMap.find_assign_self]
  · simp [GoMap.index, GoMap.find_assign_self]
  · intro k hk
    simp [GoMap.find_assign_of_ne _ _ hk]
  · intro httpGet url resp hr
    have hE : (makeRequest httpGet url).Error = none := by simp [makeRequest, hr]
    refine ⟨hE, by simp [makeRequest, hr], ?_⟩
    rw [aggregate_of_success _ _ hE]

/-- A 404 response on a report holding two 200s and one error: `StatusCodes[404]` becomes
one, `Errors` stays one and the entry of 200 stays two. -/
theorem aggregate_status_counted_witness :
    GoMap.find
        (aggregate { TotalTime := 0, TotalRequests := 0, StatusCodes := [(200, 2)], Errors := 1 }
          { StatusCode := 404, Duration := 5, Error := none }).StatusCodes 404 = some 1 ∧
      (aggregate { TotalTime := 0, TotalRequests := 0, StatusCodes := [(200, 2)], Errors := 1 }
          { StatusCode := 404, Duration := 5, Error := none }).Errors = 1 ∧
      GoMap.find
        (aggregate { TotalTime := 0, TotalRequests := 0, StatusCodes := [(200, 2)], Errors := 1 }
          { StatusCode := 404, Duration := 5, Error := none }).StatusCodes 200 = some 2 :=
  have h := aggregate_status_counted
    { TotalTime := 0, TotalRequests := 0, StatusCodes := [(200, 2)], Errors := 1 }
    { StatusCode := 404, Duration := 5, Error := none } rfl
  ⟨h.1, h.2.2.1, h.2.2.2.1 200 (by decide)⟩

/-- Claim C5: when `http.Get` returns a non-nil error, `makeRequest` returns a result with
`StatusCode = 0` and that error, and the aggregation step then raises `Errors` by exactly
one and leaves `StatusCodes` as it was; in particular no entry for code `0` is created. -/
theorem aggregate_transport_failure (report : Report) (httpGet : String → GetOutcome)
    (url err : String) (h : (httpGet url).reply = Except.error err) :
    makeRequest httpGet url =
        { StatusCode := 0, Duration := (httpGet url).elapsed, Error := some err } ∧
      (aggregate report (makeRequest httpGet url)).Errors = report.Errors + 1 ∧
      (aggregate report (makeRequest httpGet url)).StatusCodes = report.StatusCodes ∧
      GoMap.find (aggregate report (makeRequest httpGet url)).StatusCodes 0 =
        GoMap.find report.StatusCodes 0 := by
  have hm : makeRequest httpGet url =
      { StatusCode := 0, Duration := (httpGet url).elapsed, Error := some err } := by
    simp [makeRequest, h]
  rw [hm, aggregate_of_failure _ _ (by simp)]
  simp

/-- A refused connection on a report holding two 200s: `Errors` goes from one to two and
the map is untouched. -/
theorem aggregate_transport_failure_witness :
    (aggregate { TotalTime := 0, TotalRequests := 0, StatusCodes := [(200, 2)], Errors := 1 }
        (makeRequest (fun _ => { reply := .error "connection refused", elapsed := 5 })
          "http://localhost:1")).Errors = 2 ∧
      (aggregate { TotalTime := 0, TotalRequests := 0, StatusCodes := [(200, 2)], Errors := 1 }
        (makeRequest (fun _ => { reply := .error "connection refused", elapsed := 5 })
          "http://localhost:1")).StatusCodes = [(200, 2)] :=
  have h := aggregate_transport_failure
    { TotalTime := 0, TotalRequests := 0, StatusCodes := [(200, 2)], Errors := 1 }
    (fun _ => { reply := .error "connection refused", elapsed := 5 })
    "http://localhost:1" "connection refused" rfl
  ⟨h.2.1, h.2.2.1⟩

/-- Claim C10: the counts of the report do not depend on the order in which the results
arrive: folding the aggregation step over a list of results and over any permutation of
it, from the empty report, gives the same `Errors` and the same `StatusCodes` map: the
same lookup result for every key, and the same entries. -/
theorem aggregate_order_independent (rs rs' : List Result) (h : rs.Perm rs') :
    (rs.foldl aggregate emptyReport).Errors = (rs'.foldl aggregate emptyReport).Errors ∧
      (∀ k, GoMap.find (rs.foldl aggregate emptyReport).StatusCodes k =
        GoMap.find (rs'.foldl aggregate emptyReport).StatusCodes k) ∧
      (rs.foldl aggregate emptyReport).StatusCodes.Perm
        (rs'.foldl aggregate emptyReport).StatusCodes := by
  have hfind : ∀ k, GoMap.find (rs.foldl aggregate emptyReport).StatusCodes k =
      GoMap.find (rs'.foldl aggregate emptyReport).StatusCodes k := by
    intro k
    rw [find_foldl_aggregate, find_foldl_aggregate, h.countP_eq]
  have hempty : (GoMap.keys emptyReport.StatusCodes).Nodup := by simp [emptyReport, GoMap.keys]
  refine ⟨?_, hfind, ?_⟩
  · rw [errors_foldl_aggregate, errors_foldl_aggregate, h.countP_eq]
  · exact GoMap.perm_of_find_eq _ _ (nodup_keys_foldl_aggregate rs _ hempty)
      (nodup_keys_foldl_aggregate rs' _ hempty) hfind

/-- A 404, a failure and a 200, received in two different orders. -/
theorem aggregate_order_independent_witness :
    (([{ StatusCode := 404, Duration := 5, Error := none },
        { StatusCode := 0, Duration := 3, Error := some "connection refused" },
        { StatusCode := 200, Duration := 4, Error := none }] : List Result).foldl
          aggregate emptyReport).Errors =
      (([{ StatusCode := 200, Duration := 4, Error := none },
        { StatusCode := 404, Duration := 5, Error := none },
        { StatusCode := 0, Duration := 3, Error := some "connection refused" }] :
          List Result).foldl aggregate emptyReport).Errors :=
  (aggregate_order_independent
    [{ StatusCode := 404, Duration := 5, Error := none },
      { StatusCode := 0, Duration := 3, Error := some "connection refused" },
      { StatusCode := 200, Duration := 4, Error := none }]
    [{ StatusCode := 200, Duration := 4, Error := none },
      { StatusCode := 404, Duration := 5, Error := none },
      { StatusCode := 0, Duration := 3, Error := some "connection refused" }]
    (by decide)).1

/-! ## Categories and the printed distribution -/

/-- Claim C6: `getStatusCategory` groups the codes by their hundreds: the 1xx category
exactly for `100 ≤ code < 200`, "Sucesso (2xx)" exactly for `200 ≤ code < 300`, the 3xx
category exactly for `300 ≤ code < 400`, the 4xx category exactly for `400 ≤ code < 500`,
"Erro do Servidor (5xx)" exactly for `500 ≤ code < 600`, and "Código Desconhecido" for
every other integer; 201 is a success code and 503 a server-error code. -/
theorem getStatusCategory_ranges (code : Int) :
    (getStatusCategory code = "Informacional (1xx)" ↔ 100 ≤ code ∧ code < 200) ∧
    (getStatusCategory code = "Sucesso (2xx)" ↔ 200 ≤ code ∧ code < 300) ∧
    (getStatusCategory code = "Redirecionamento (3xx)" ↔ 300 ≤ code ∧ code < 400) ∧
    (getStatusCategory code = "Erro do Cliente (4xx)" ↔ 400 ≤ code ∧ code < 500) ∧
    (getStatusCategory code = "Erro do Servidor (5xx)" ↔ 500 ≤ code ∧ code < 600) ∧
    (getStatusCategory code = "Código Desconhecido" ↔ code < 100 ∨ 600 ≤ code) ∧
    getStatusCategory 201 = "Sucesso (2xx)" ∧
    getStatusCategory 503 = "Erro do Servidor (5xx)" := by
  refine ⟨?_, ?_, ?_, ?_, ?_, ?_, by decide, by decide⟩ <;>
  · unfold getStatusCategory
    split_ifs <;> simp <;> omega

/-- Claim C9: for every status-code map, `printStatusCodeDistribution` prints the
categories that hold a code in strictly ascending string order of their names, the codes of
each category in strictly ascending numeric order under the header of the category
`getStatusCategory` gives them, and every entry of the map exactly once with the count the
map holds for it. -/
theorem printStatusCodeDistribution_sorted_complete (statusCodes : GoMap Int Int)
    (hnd : (GoMap.keys statusCodes).Nodup) :
    ∃ groups : List (String × List (Int × Int)),
      printStatusCodeDistribution statusCodes =
        groups.flatMap (fun g =>
          Line.header g.1 :: g.2.map fun e => Line.entry e.1 (describe e.1) e.2) ∧
      (groups.map Prod.fst).Sorted (· < ·) ∧
      (∀ g ∈ groups, g.2 ≠ [] ∧ (g.2.map Prod.fst).Sorted (· < ·) ∧
        ∀ e ∈ g.2, getStatusCategory e.1 = g.1 ∧ GoMap.find statusCodes e.1 = some e.2) ∧
      (groups.flatMap Prod.snd).Perm statusCodes := by
  obtain ⟨hk, hkeys, hinner⟩ := grouped_groupByCategory statusCodes hnd
  generalize hcats : groupByCategory statusCodes = cats at hk hkeys hinner
  have hgroups : ∀ g ∈ (List.insertionSort (· ≤ ·) (GoMap.keys cats)).map (fun c =>
        (c, (List.insertionSort (· ≤ ·) (GoMap.keys (GoMap.index [] cats c))).map fun code =>
          (code, GoMap.index 0 (GoMap.index [] cats c) code))),
      g.2 ≠ [] ∧ (g.2.map Prod.fst).Sorted (· < ·) ∧
        ∀ e ∈ g.2, getStatusCategory e.1 = g.1 ∧ e ∈ statusCodes := by
    intro g hg
    rw [List.mem_map] at hg
    obtain ⟨c, hc, rfl⟩ := hg
    rw [List.mem_insertionSort, hkeys] at hc
    obtain ⟨e0, he0, hcat0⟩ := hc
    obtain ⟨hndc, hfind⟩ := hinner c
    refine ⟨?_, ?_, ?_⟩
    · have h1 : GoMap.find (GoMap.index [] cats c) e0.1 = some e0.2 :=
        (hfind e0.1 e0.2).mpr ⟨he0, hcat0⟩
      have h2 : e0.1 ∈ List.insertionSort (· ≤ ·) (GoMap.keys (GoMap.index [] cats c)) := by
        rw [List.mem_insertionSort, GoMap.mem_keys_iff_find]
        exact ⟨_, h1⟩
      intro hnil
      simp only [List.map_eq_nil_iff] at hnil
      rw [hnil] at h2
      simp at h2
    · simp only [List.map_map, Function.comp_def, List.map_id']
      exact sorted_lt_insertionSort _ hndc
    · intro e he
      simp only [List.mem_map, List.mem_insertionSort] at he
      obtain ⟨code, hcode, rfl⟩ := he
      rw [GoMap.mem_keys_iff_find] at hcode
      obtain ⟨v, hv⟩ := hcode
      have hi : GoMap.index 0 (GoMap.index [] cats c) code = v :=
        GoMap.index_of_find _ _ _ _ hv
      rw [hi]
      obtain ⟨hm, hcat⟩ := (hfind code v).mp hv
      exact ⟨hcat, hm⟩
  have hsorted : (((List.insertionSort (· ≤ ·) (GoMap.keys cats)).map (fun c =>
        (c, (List.insertionSort (· ≤ ·) (GoMap.keys (GoMap.index [] cats c))).map fun code =>
          (code, GoMap.index 0 (GoMap.index [] cats c) code)))).map Prod.fst).Sorted (· < ·) := by
    simp only [List.map_map, Function.comp_def, List.map_id']
    exact sorted_lt_insertionSort _ hk
  refine ⟨_, ?_, hsorted, ?_, ?_⟩
  · simp only [printStatusCodeDistribution, hcats, List.flatMap_map]
    congr 1
    funext c
    simp only [printCategory, List.map_map, Function.comp_def]
  · intro g hg
    obtain ⟨h1, h2, h3⟩ := hgroups g hg
    exact ⟨h1, h2, fun e he => ⟨(h3 e he).1, GoMap.find_of_mem _ _ _ hnd (h3 e he).2⟩⟩
  · rw [List.perm_ext_iff_of_nodup]
    · intro e
      rw [List.mem_flatMap]
      constructor
      · rintro ⟨g, hg, he⟩
        exact ((hgroups g hg).2.2 e he).2
      · intro he
        obtain ⟨hndc, hfind⟩ := hinner (getStatusCategory e.1)
        have h1 : GoMap.find (GoMap.index [] cats (getStatusCategory e.1)) e.1 = some e.2 :=
          (hfind e.1 e.2).mpr ⟨he, rfl⟩
        refine ⟨_, List.mem_map.mpr ⟨getStatusCategory e.1, ?_, rfl⟩, ?_⟩
        · rw [List.mem_insertionSort, hkeys]
          exact ⟨e, he, rfl⟩
        · simp only [List.mem_map, List.mem_insertionSort]
          refine ⟨e.1, ?_, ?_⟩
          · rw [GoMap.mem_keys_iff_find]
            exact ⟨_, h1⟩
          · rw [GoMap.index_of_find _ _ _ _ h1]
    · rw [List.nodup_flatMap]
      refine ⟨?_, ?_⟩
      · intro g hg
        exact List.Nodup.of_map Prod.fst (hgroups g hg).2.1.nodup
      · have hp := List.pairwise_map.mp hsorted
        refine hp.imp_of_mem ?_
        intro a b ha hb hab e hea heb
        have e1 := ((hgroups a ha).2.2 e hea).1
        have e2 := ((hgroups b hb).2.2 e heb).1
        rw [← e1, ← e2] at hab
        exact lt_irrefl _ hab
    · exact List.Nodup.of_map Prod.fst hnd

/-- The distribution of a map with two success codes, a 404 and a 503. -/
theorem printStatusCodeDistribution_sorted_complete_witness :
    (GoMap.keys ([(404, 3), (200, 5), (503, 2), (201, 7)] : GoMap Int Int)).Nodup ∧
      ∃ groups : List (String × List (Int × Int)),
        printStatusCodeDistribution [(404, 3), (200, 5), (503, 2), (201, 7)] =
          groups.flatMap (fun g =>
            Line.header g.1 :: g.2.map fun e => Line.entry e.1 (describe e.1) e.2) ∧
        (groups.map Prod.fst).Sorted (· < ·) ∧
        (groups.flatMap Prod.snd).Perm [(404, 3), (200, 5), (503, 2), (201, 7)] := by
  refine ⟨by decide, ?_⟩
  obtain ⟨groups, hprint, hsorted, _, hperm⟩ :=
    printStatusCodeDistribution_sorted_complete [(404, 3), (200, 5), (503, 2), (201, 7)]
      (by decide)
  exact ⟨groups, hprint, hsorted, hperm⟩

/-! ## Configuration validation -/

/-- Claim C7: `main` ends in a fatal configuration error exactly when the URL is empty, or
`requests ≤ 0`, or `concurrency ≤ 0`, or `concurrency > requests`, and then nothing of the
environment is consulted: `runStressTest` is not called.  Otherwise `R > 0` and
`1 ≤ C ≤ R` hold and the outcome of `main` is that of the call of `runStressTest`.  With a
URL, `requests = 10` and `concurrency = 20` are rejected because the concurrency exceeds the
number of requests. -/
theorem main_validation (world : World) (url : String) (requests concurrency : Int) :
    ((∃ msg, main world url requests concurrency = Exit.fatal msg) ↔
      (url = "" ∨ requests ≤ 0 ∨ concurrency ≤ 0 ∨ concurrency > requests)) ∧
    ((url = "" ∨ requests ≤ 0 ∨ concurrency ≤ 0 ∨ concurrency > requests) →
      ∀ other : World, main other url requests concurrency =
        main world url requests concurrency) ∧
    (¬ (url = "" ∨ requests ≤ 0 ∨ concurrency ≤ 0 ∨ concurrency > requests) →
      requests > 0 ∧ 1 ≤ concurrency ∧ concurrency ≤ requests ∧
      (∀ report, runStressTest world url requests concurrency = some report →
        main world url requests concurrency =
          Exit.finished report (printStatusCodeDistribution report.StatusCodes)
            (if report.Errors > 0 then some report.Errors else none)) ∧
      (runStressTest world url requests concurrency = none →
        main world url requests concurrency = Exit.panicked)) ∧
    (url ≠ "" → main world url 10 20 =
      Exit.fatal "Concorrência não pode ser maior que o número total de requisições") := by
  have hcall : ¬ (url = "" ∨ requests ≤ 0 ∨ concurrency ≤ 0 ∨ concurrency > requests) →
      main world url requests concurrency =
        match runStressTest world url requests concurrency with
        | none => Exit.panicked
        | some report =>
          Exit.finished report (printStatusCodeDistribution report.StatusCodes)
            (if report.Errors > 0 then some report.Errors else none) := by
    intro h
    push_neg at h
    obtain ⟨h1, h2, h3, h4⟩ := h
    unfold main
    rw [if_neg h1, if_neg (by omega), if_neg (by omega), if_neg (by omega)]
  refine ⟨⟨?_, ?_⟩, ?_, ?_, ?_⟩
  · rintro ⟨msg, hmsg⟩
    by_contra hn
    rw [hcall hn] at hmsg
    cases hrun : runStressTest world url requests concurrency with
    | none =>
      rw [hrun] at hmsg
      cases hmsg
    | some report =>
      rw [hrun] at hmsg
      cases hmsg
  · intro h
    unfold main
    split_ifs
    all_goals first
      | exact ⟨_, rfl⟩
      | (exfalso; rcases h with h | h | h | h <;> contradiction)
  · intro h other
    unfold main
    split_ifs
    all_goals first
      | rfl
      | (exfalso; rcases h with h | h | h | h <;> contradiction)
  · intro h
    have hm := hcall h
    push_neg at h
    obtain ⟨_, h2, h3, h4⟩ := h
    refine ⟨by omega, by omega, by omega, ?_, ?_⟩
    · intro report hrun
      rw [hm, hrun]
    · intro hrun
      rw [hm, hrun]
  · intro h
    unfold main
    rw [if_neg h]
    simp

/-- Ten requests with concurrency twenty are rejected; ten requests with concurrency three
reach `runStressTest` and `main` finishes with its report; `2^62` requests pass the checks
and `main` ends in the panic of `runStressTest`. -/
theorem main_validation_witness :
    main flakyWorld "http://localhost:8080" 10 20 =
        Exit.fatal "Concorrência não pode ser maior que o número total de requisições" ∧
      main flakyWorld "http://localhost:8080" 10 3 =
        Exit.finished
          { TotalTime := 99, TotalRequests := 10,
            StatusCodes := [(300, 2), (400, 3), (200, 1)], Errors := 4 }
          (printStatusCodeDistribution [(300, 2), (400, 3), (200, 1)]) (some 4) ∧
      main flakyWorld "http://localhost:8080" 4611686018427387904 1 = Exit.panicked :=
  ⟨(main_validation flakyWorld "http://localhost:8080" 10 20).2.2.2 (by decide),
    ((main_validation flakyWorld "http://localhost:8080" 10 3).2.2.1 (by decide)).2.2.2.1
      _ (by decide),
    ((main_validation flakyWorld "http://localhost:8080" 4611686018427387904 1).2.2.1
      (by decide)).2.2.2.2 (by decide)⟩

end StressTest
